import Mathlib

/-!
Shallow embedding of the DataLens spreadsheet viewer (src/unnamed/part_000,
the React `App` component) in Lean 4, together with proofs about the claims
of the specification.

Modelling conventions, each traceable to a line of the source:

* A JS cell value (`string | number | boolean | null`) is `Value`.
  Numbers are modelled as `Int` (the claims never exercise fractional or
  NaN behaviour).
* A JS row object is `Row`: an association list of fields plus a `rid`
  field modelling the object's reference identity.  Every freshly
  allocated object (parsing a file, `{...row, ...patch}` spreads) gets a
  fresh `rid` from the `nextRid` counter of the state, so `rid` equality
  coincides with JS strict (===) equality on row objects, which is what
  `Array.prototype.indexOf` uses in `saveChanges`.
* `Set<string>` values are modelled as duplicate-free `List String` in
  insertion order (`has` = membership, `add` = append if absent,
  `delete` = erase, `size` = length).
* `Record<string, _>` objects are association lists in key-insertion
  order; property update keeps the key position, new keys are appended.
* The `useMemo` cache of `filteredRows` (source lines 226-271) is the
  `MemoCache` structure; its dependency array `[data, searchQuery,
  sortConfig]` is compared structurally (the dataset is replaced
  wholesale on every mutation, so structural equality coincides with
  the reference comparison React performs on the traces evaluated here).
  The dependency array in the source omits `columnFilters` even though
  the memo body reads it; the model reproduces that omission faithfully.
-/

namespace DataViewer

/-- JS cell values: `string | number | boolean | null`. -/
inductive Value where
  | str (s : String)
  | num (n : Int)
  | boolean (b : Bool)
  | null
deriving DecidableEq

/-- A row object: `rid` models JS reference identity, `fields` the own
enumerable properties in insertion order. -/
structure Row where
  rid : Nat
  fields : List (String × Value)
deriving DecidableEq

/-- The `SpreadsheetData` record of src/types. -/
structure SpreadsheetData where
  headers : List String
  rows : List Row
  fileName : String
  fileId : Option String
deriving DecidableEq

/-- Sort direction of `sortConfig`. -/
inductive Direction where
  | asc
  | desc
deriving DecidableEq

/-- The `sortConfig` state: `{ key: string | null; direction: 'asc' | 'desc' }`. -/
structure SortConfig where
  key : Option String
  direction : Direction
deriving DecidableEq

/-- The `useMemo` cache of `filteredRows`: last dependency values and the
cached result. -/
structure MemoCache where
  depData : Option SpreadsheetData
  depQuery : String
  depSort : SortConfig
  value : List Row
deriving DecidableEq

/-! ### String helpers (JS semantics) -/

/-- Characters removed by `String.prototype.trim` (WhiteSpace and
LineTerminator code points). -/
def jsWhitespaceChar (c : Char) : Bool :=
  c = ' ' ∨ c = '\t' ∨ c = '\n' ∨ c = '\r' ∨
  c = Char.ofNat 0x0B ∨ c = Char.ofNat 0x0C ∨ c = Char.ofNat 0xA0 ∨
  c = Char.ofNat 0x1680 ∨ (0x2000 ≤ c.toNat ∧ c.toNat ≤ 0x200A) ∨
  c = Char.ofNat 0x2028 ∨ c = Char.ofNat 0x2029 ∨ c = Char.ofNat 0x202F ∨
  c = Char.ofNat 0x205F ∨ c = Char.ofNat 0x3000 ∨ c = Char.ofNat 0xFEFF

/-- `name.trim()`. -/
def jsTrim (s : String) : String :=
  String.mk (((s.toList.dropWhile jsWhitespaceChar).reverse.dropWhile jsWhitespaceChar).reverse)

/-- `s.toLowerCase()` (ASCII case folding; the claims exercise no other). -/
def jsToLower (s : String) : String :=
  String.mk (s.toList.map Char.toLower)

/-- Lexicographic `<` on characters lists, as JS compares strings. -/
def charListLt : List Char → List Char → Bool
  | [], [] => false
  | [], _ :: _ => true
  | _ :: _, [] => false
  | a :: as, b :: bs => if a < b then true else if b < a then false else charListLt as bs

/-- JS string `<` comparison. -/
def strLtB (a b : String) : Bool :=
  charListLt a.toList b.toList

/-- Whether `pat` is a leading segment of `text`. -/
def listStartsWith : List Char → List Char → Bool
  | [], _ => true
  | _ :: _, [] => false
  | a :: as, b :: bs => a = b && listStartsWith as bs

/-- `text.includes(pat)` on character lists. -/
def listIncludes : List Char → List Char → Bool
  | [], pat => pat.isEmpty
  | c :: cs, pat => listStartsWith pat (c :: cs) || listIncludes cs pat

/-- `text.includes(pat)` for strings. -/
def jsIncludes (text pat : String) : Bool :=
  listIncludes text.toList pat.toList

/-- `String(v)` stringification (`String(null) = "null"`). -/
def jsString : Value → String
  | .str s => s
  | .num n => toString n
  | .boolean b => if b then "true" else "false"
  | .null => "null"

/-- `String(v ?? '')`: nullish cells become the empty string. -/
def textOrEmpty : Option Value → String
  | none => ""
  | some .null => ""
  | some v => jsString v

/-! ### Association-list and set helpers (JS object / Set semantics) -/

/-- Property read `m[k]` as `Option`. -/
def recordLookup {α : Type} : List (String × α) → String → Option α
  | [], _ => none
  | kv :: rest, k => if kv.1 = k then some kv.2 else recordLookup rest k

/-- Property write: an existing key keeps its position, a new key is
appended (JS object insertion order). -/
def recordSet {α : Type} (m : List (String × α)) (k : String) (v : α) : List (String × α) :=
  if m.any (fun kv => kv.1 = k) then
    m.map (fun kv => if kv.1 = k then (k, v) else kv)
  else m ++ [(k, v)]

/-- `delete m[k]`. -/
def recordDelete {α : Type} (m : List (String × α)) (k : String) : List (String × α) :=
  m.filter (fun kv => ¬ kv.1 = k)

/-- `new Set(l)` for a string list: dedupe keeping first occurrences. -/
def jsSetOfList (l : List String) : List String :=
  l.foldl (fun acc x => if x ∈ acc then acc else acc ++ [x]) []

/-- `set.add(x)` on the list model of a `Set<string>`. -/
def setAdd (l : List String) (x : String) : List String :=
  if x ∈ l then l else l ++ [x]

/-- `row[col]` (undefined ↦ `none`). -/
def rowGet (r : Row) (c : String) : Option Value :=
  recordLookup r.fields c

/-- `String(row[col] ?? '')`, the textual cell representation used by the
column filters. -/
def cellText (r : Row) (c : String) : String :=
  textOrEmpty (rowGet r c)

/-! ### The view pipeline (`filteredRows` memo body, source lines 226-271) -/

/-- Search predicate: some field value's lowercased stringification
contains the lowercased query (source lines 232-239). -/
def searchPred (query : String) (r : Row) : Bool :=
  r.fields.any (fun kv => jsIncludes (jsToLower (jsString kv.2)) (jsToLower query))

/-- Column filters: for each entry with a non-empty accepted set, keep the
rows whose cell text is a member (source lines 241-247). -/
def applyFilters (filters : List (String × List String)) (rows : List Row) : List Row :=
  filters.foldl
    (fun rs cv =>
      if cv.2.length > 0 then rs.filter (fun r => cv.2.contains (cellText r cv.1)) else rs)
    rows

/-- The sort comparator (source lines 251-267): strict equality of the two
cell values gives 0; two numbers compare numerically; otherwise the
lowercased textual representations compare lexicographically, with the
sign flipped for descending order. -/
def cmpJS (key : String) (dir : Direction) (a b : Row) : Int :=
  let aVal := rowGet a key
  let bVal := rowGet b key
  if aVal = bVal then 0
  else
    match aVal, bVal with
    | some (Value.num x), some (Value.num y) =>
        (match dir with | Direction.asc => x - y | Direction.desc => y - x)
    | _, _ =>
        let aStr := jsToLower (textOrEmpty aVal)
        let bStr := jsToLower (textOrEmpty bVal)
        if strLtB aStr bStr then (match dir with | Direction.asc => -1 | Direction.desc => 1)
        else if strLtB bStr aStr then (match dir with | Direction.asc => 1 | Direction.desc => -1)
        else 0

/-- Stable insertion of `x` (an element preceding `l` in the input) into
an already sorted `l`: `x` is placed before the first element it does not
strictly follow, so comparator ties keep the input order, as
`Array.prototype.sort` guarantees. -/
def insertSorted {α : Type} (cmp : α → α → Int) (x : α) : List α → List α
  | [] => [x]
  | y :: ys => if cmp x y ≤ 0 then x :: y :: ys else y :: insertSorted cmp x ys

/-- The stable sort performed by `[...rows].sort(comparator)`. -/
def stableSort {α : Type} (cmp : α → α → Int) (l : List α) : List α :=
  l.foldr (insertSorted cmp) []

/-- The body of the `filteredRows` memo: search, then column filters, then
sort.  `if (searchQuery)` and `if (sortConfig.key)` are JS truthiness
tests, so the empty string disables the corresponding stage. -/
def filteredRowsCalc (data : Option SpreadsheetData) (searchQuery : String)
    (columnFilters : List (String × List String)) (sortConfig : SortConfig) : List Row :=
  match data with
  | none => []
  | some d =>
      let rows := if searchQuery = "" then d.rows else d.rows.filter (searchPred searchQuery)
      let rows := applyFilters columnFilters rows
      match sortConfig.key with
      | none => rows
      | some k =>
          if k = "" then rows else stableSort (cmpJS k sortConfig.direction) rows

/-! ### Application state and event handlers -/

/-- Panel navigation direction. -/
inductive NavDir where
  | prev
  | next
deriving DecidableEq

/-- The component state relevant to the core engine.  `nextRid` is the
allocator for object identities (see module docstring); `memoFiltered` is
the `useMemo` cache of `filteredRows`. -/
structure AppState where
  data : Option SpreadsheetData
  searchQuery : String
  selectedIndex : Option Int
  isPanelOpen : Bool
  sortConfig : SortConfig
  visibleColumns : List String
  columnOrder : List String
  columnFilters : List (String × List String)
  pendingChanges : List (String × String)
  memoFiltered : MemoCache
  nextRid : Nat
deriving DecidableEq

/-- `arr[i]` for a possibly negative or out-of-range index. -/
def jsArrayGet {α : Type} (l : List α) (i : Int) : Option α :=
  if i < 0 then none else l.get? i.toNat

/-- First index of an element, by string equality. -/
def strIndexOfAux (x : String) : List String → Option Nat
  | [] => none
  | y :: ys => if y = x then some 0 else (strIndexOfAux x ys).map (· + 1)

/-- `order.indexOf(x)`: first index, `-1` when absent. -/
def jsIndexOfStr (l : List String) (x : String) : Int :=
  match strIndexOfAux x l with
  | some n => (n : Int)
  | none => -1

/-- `data.rows.indexOf(targetRow)`: `Array.prototype.indexOf` compares row
objects with strict equality, i.e. reference identity, modelled by `rid`. -/
def ridIndexOf (rid : Nat) : List Row → Option Nat
  | [] => none
  | r :: rs => if r.rid = rid then some 0 else (ridIndexOf rid rs).map (· + 1)

/-- The start index actually used by `Array.prototype.splice`: negative
values count from the end, everything is clamped to `[0, length]`. -/
def spliceStart (len : Nat) (start : Int) : Nat :=
  if start < 0 then (max ((len : Int) + start) 0).toNat else min start.toNat len

/-- `arr.splice(start, 1)`. -/
def spliceRemoveOne {α : Type} (l : List α) (start : Int) : List α :=
  l.take (spliceStart l.length start) ++ l.drop (spliceStart l.length start + 1)

/-- `arr.splice(start, 0, x)`. -/
def spliceInsert {α : Type} (l : List α) (start : Int) (x : α) : List α :=
  l.take (spliceStart l.length start) ++ x :: l.drop (spliceStart l.length start)

/-- Object spread `{...fields, [k]: v}`: one property assignment. -/
def assocSet (fields : List (String × Value)) (k : String) (v : Value) : List (String × Value) :=
  if fields.any (fun kv => kv.1 = k) then
    fields.map (fun kv => if kv.1 = k then (k, v) else kv)
  else fields ++ [(k, v)]

/-- Object spread `{...fields, ...patch}` where the patch carries the
string values staged by `handleFieldUpdate`. -/
def mergeFields (fields : List (String × Value)) (patch : List (String × String)) :
    List (String × Value) :=
  patch.foldl (fun fs p => assocSet fs p.1 (Value.str p.2)) fields

/-- `toggleColumn` (source lines 280-288): flip visibility but keep at
least one visible column. -/
def toggleColumnSet (header : String) (vis : List String) : List String :=
  if vis.contains header then
    (if vis.length > 1 then vis.erase header else vis)
  else setAdd vis header

/-- `toggleColumnFilterValue` (source lines 290-306): toggle membership of
`val` in the accepted set of `col`; an emptied set is deleted from the
record. -/
def toggleFilterMap (col val : String) (m : List (String × List String)) :
    List (String × List String) :=
  let currentSet := match recordLookup m col with | some vs => vs | none => []
  let nextSet := if currentSet.contains val then currentSet.erase val else currentSet ++ [val]
  if nextSet = [] then recordDelete m col else recordSet m col nextSet

/-- `handleRowClick` (source lines 322-327). -/
def handleRowClick (i : Nat) (s : AppState) : AppState :=
  { s with selectedIndex := some (i : Int), isPanelOpen := true, pendingChanges := [] }

/-- `navigateRecord` (source lines 329-337): clamp within the current
view's bounds and clear the pending buffer. -/
def navigateRecord (dir : NavDir) (s : AppState) : AppState :=
  match s.selectedIndex with
  | none => s
  | some i =>
      let len : Int := (s.memoFiltered.value.length : Int)
      let newIndex : Int :=
        match dir with
        | NavDir.prev => max 0 (i - 1)
        | NavDir.next => min (len - 1) (i + 1)
      { s with selectedIndex := some newIndex, pendingChanges := [] }

/-- `discardChanges` (source lines 339-342). -/
def discardChanges (s : AppState) : AppState :=
  { s with pendingChanges := [] }

/-- `handleFieldUpdate` (source lines 344-350). -/
def handleFieldUpdate (header value : String) (s : AppState) : AppState :=
  { s with pendingChanges := recordSet s.pendingChanges header value }

/-- `saveChanges` (source lines 352-371): resolve the selected view row
back into `data.rows` by reference (`indexOf`), merge the buffer into a
fresh row object at that position, and clear the buffer; any resolution
failure leaves the state untouched. -/
def saveChanges (s : AppState) : AppState :=
  match s.selectedIndex, s.data with
  | some i, some d =>
      match jsArrayGet s.memoFiltered.value i with
      | none => s
      | some target =>
          match ridIndexOf target.rid d.rows with
          | none => s
          | some j =>
              match d.rows.get? j with
              | none => s
              | some old =>
                  { s with
                    data := some { d with
                      rows := d.rows.set j ⟨s.nextRid, mergeFields old.fields s.pendingChanges⟩ },
                    pendingChanges := [],
                    nextRid := s.nextRid + 1 }
  | _, _ => s

/-- `addColumn` (source lines 373-396).  Returns the new state and the
alert message, if any.  The row objects are rebuilt by the spread, hence
the fresh `rid`s. -/
def addColumn (name : String) (s : AppState) : AppState × Option String :=
  match s.data with
  | none => (s, none)
  | some d =>
      if jsTrim name = "" then (s, none)
      else if d.headers.contains (jsTrim name) then (s, some "Column already exists")
      else
        ({ s with
           data := some { d with
             headers := d.headers ++ [jsTrim name],
             rows := d.rows.enum.map (fun p =>
               Row.mk (s.nextRid + p.1) (assocSet p.2.fields (jsTrim name) (Value.str ""))) },
           visibleColumns := setAdd s.visibleColumns (jsTrim name),
           columnOrder := s.columnOrder ++ [jsTrim name],
           nextRid := s.nextRid + d.rows.length }, none)

/-- `moveColumn` (source lines 460-467): both indices are computed before
the two splices run. -/
def moveColumnList (draggedHeader targetHeader : String) (order : List String) : List String :=
  let oldIndex := jsIndexOfStr order draggedHeader
  let newIndex := jsIndexOfStr order targetHeader
  spliceInsert (spliceRemoveOne order oldIndex) newIndex draggedHeader

/-- Closing the detail panel (source lines 875-880). -/
def closePanel (s : AppState) : AppState :=
  { s with isPanelOpen := false, pendingChanges := [] }

/-- `resetApp` (source lines 469-476). -/
def resetApp (s : AppState) : AppState :=
  { s with data := none, searchQuery := "", selectedIndex := none,
           isPanelOpen := false, pendingChanges := [] }

/-- `toggleSort` (source lines 273-278). -/
def toggleSort (key : String) (s : AppState) : AppState :=
  { s with sortConfig :=
      if s.sortConfig.key = some key ∧ s.sortConfig.direction = Direction.asc then
        ⟨some key, Direction.desc⟩
      else ⟨some key, Direction.asc⟩ }

/-- The parse-complete callback of an import (source lines 149-159 and
175-184): set the dataset, make all headers visible, and take the header
sequence as the display order. -/
def loadData (headers : List String) (rowsFields : List (List (String × Value)))
    (fileName : String) (fileId : Option String) (s : AppState) : AppState :=
  { s with
    data := some ⟨headers, rowsFields.enum.map (fun p => Row.mk (s.nextRid + p.1) p.2),
                  fileName, fileId⟩,
    visibleColumns := jsSetOfList headers,
    columnOrder := headers,
    nextRid := s.nextRid + rowsFields.length }

/-! ### Events, rendering, and the step function -/

/-- A UI event reaching the core engine. -/
inductive Event where
  | load (headers : List String) (rowsFields : List (List (String × Value)))
         (fileName : String) (fileId : Option String)
  | search (q : String)
  | sortBy (key : String)
  | toggleVis (h : String)
  | toggleFilter (c v : String)
  | clearFilter (c : String)
  | rowClick (i : Nat)
  | nav (d : NavDir)
  | fieldUpdate (h v : String)
  | save
  | discard
  | addCol (name : String)
  | moveCol (dragged target : String)
  | close
  | reset

/-- A render pass: recompute the `filteredRows` memo exactly when one of
the three listed dependencies `[data, searchQuery, sortConfig]` changed —
`columnFilters` is read by the body but absent from the dependency array
(source line 271), and this model reproduces that. -/
def render (s : AppState) : AppState :=
  if s.memoFiltered.depData = s.data ∧ s.memoFiltered.depQuery = s.searchQuery ∧
     s.memoFiltered.depSort = s.sortConfig then s
  else
    { s with memoFiltered :=
        ⟨s.data, s.searchQuery, s.sortConfig,
         filteredRowsCalc s.data s.searchQuery s.columnFilters s.sortConfig⟩ }

/-- Dispatch one event to its handler. -/
def applyEvent : Event → AppState → AppState
  | Event.load hs rf fn fid, s => loadData hs rf fn fid s
  | Event.search q, s => { s with searchQuery := q }
  | Event.sortBy k, s => toggleSort k s
  | Event.toggleVis h, s => { s with visibleColumns := toggleColumnSet h s.visibleColumns }
  | Event.toggleFilter c v, s => { s with columnFilters := toggleFilterMap c v s.columnFilters }
  | Event.clearFilter c, s => { s with columnFilters := recordDelete s.columnFilters c }
  | Event.rowClick i, s => handleRowClick i s
  | Event.nav d, s => navigateRecord d s
  | Event.fieldUpdate h v, s => handleFieldUpdate h v s
  | Event.save, s => saveChanges s
  | Event.discard, s => discardChanges s
  | Event.addCol n, s => (addColumn n s).1
  | Event.moveCol a b, s => { s with columnOrder := moveColumnList a b s.columnOrder }
  | Event.close, s => closePanel s
  | Event.reset, s => resetApp s

/-- One event-handler run followed by the re-render React performs before
the next event is processed. -/
def step (e : Event) (s : AppState) : AppState :=
  render (applyEvent e s)

/-- Run a sequence of events. -/
def runEvents (es : List Event) (s : AppState) : AppState :=
  es.foldl (fun s e => step e s) s

/-- The initial component state (source lines 50-70), with the memo cache
of the initial render. -/
def initialState : AppState :=
  { data := none, searchQuery := "", selectedIndex := none, isPanelOpen := false,
    sortConfig := ⟨none, Direction.asc⟩, visibleColumns := [], columnOrder := [],
    columnFilters := [], pendingChanges := [],
    memoFiltered := ⟨none, "", ⟨none, Direction.asc⟩, []⟩, nextRid := 0 }

/-- The memo cache's dependency snapshot agrees with the current state —
an invariant of every rendered state. -/
def MemoDepsFresh (s : AppState) : Prop :=
  s.memoFiltered.depData = s.data ∧ s.memoFiltered.depQuery = s.searchQuery ∧
  s.memoFiltered.depSort = s.sortConfig

instance (s : AppState) : Decidable (MemoDepsFresh s) := by
  unfold MemoDepsFresh; infer_instance

/-! ### Concrete instances used by counterexamples and witnesses -/

/-- Two-row dataset over a single column `A` with cell texts `x` and `y`. -/
def exRowsXY : List (List (String × Value)) :=
  [[("A", Value.str "x")], [("A", Value.str "y")]]

/-- The event trace for the stale-filter scenario: import the two-row
dataset, then accept only the value `x` on column `A`. -/
def staleTrace : List Event :=
  [Event.load ["A"] exRowsXY "f.csv" none, Event.toggleFilter "A" "x"]

/-- State reached by the stale-filter trace. -/
def staleState : AppState :=
  runEvents staleTrace initialState

/-- Dataset with two rows whose `A` cells differ, used by the filter
monotonicity counterexample. -/
def exDataAB : SpreadsheetData :=
  ⟨["A"], [⟨0, [("A", Value.str "a")]⟩, ⟨1, [("A", Value.str "b")]⟩], "f.csv", none⟩

/-- A rendered two-row state used by the commit witnesses: dataset loaded,
no query, no filters, no sort, memo in sync. -/
def exState2 : AppState :=
  runEvents [Event.load ["A"] exRowsXY "f.csv" none] initialState

/-- Dataset with two rows of identical content (distinct objects), used by
the duplicate-row commit scenario. -/
def exRowsDup : List (List (String × Value)) :=
  [[("A", Value.str "x")], [("A", Value.str "x")]]

/-- A rendered state whose dataset holds two content-identical rows. -/
def exStateDup : AppState :=
  runEvents [Event.load ["A"] exRowsDup "f.csv" none] initialState

/-- State with one single-column, one-row dataset, used by the add-column
counterexample. -/
def exStateA : AppState :=
  runEvents [Event.load ["A"] [[("A", Value.str "x")]] "f.csv" none] initialState

/-- The dataset value held by `exStateDup`: two content-identical rows. -/
def exDataDup : SpreadsheetData :=
  ⟨["A"], [⟨0, [("A", Value.str "x")]⟩, ⟨1, [("A", Value.str "x")]⟩], "f.csv", none⟩

/-- A state with an open record and a dirty pending buffer. -/
def exDirtyState : AppState :=
  runEvents [Event.rowClick 0, Event.fieldUpdate "A" "z"] exState2

/-- The conjunction of all active column-filter tests, used to reason
about `applyFilters` as a single `filter` pass. -/
def filtersPred (filters : List (String × List String)) (r : Row) : Bool :=
  filters.all (fun cv => cv.2.isEmpty || cv.2.contains (cellText r cv.1))

/-! ## Theorems -/

/-- C1: the displayed view is NOT recomputed after a column-filter change.
After importing a two-row dataset and accepting only the value `x` on
column `A`, the memoized `filteredRows` still holds both rows, while the
pipeline applied to the current four inputs holds exactly one: the
`useMemo` dependency array omits `columnFilters`, so the rendered row
sequence differs from the pipeline of the current inputs in a reachable
state. -/
theorem c1_filter_change_stale_view :
    staleState.memoFiltered.value.length = 2 ∧
    (filteredRowsCalc staleState.data staleState.searchQuery staleState.columnFilters
      staleState.sortConfig).length = 1 ∧
    staleState.memoFiltered.value ≠
      filteredRowsCalc staleState.data staleState.searchQuery staleState.columnFilters
        staleState.sortConfig := by
  refine ⟨rfl, rfl, ?_⟩
  decide

/-- C5 counterexample: adding the value `b` to column `A`'s accepted set
`{a}` (via `toggleColumnFilterValue`) INCREASES the view's row count from
1 to 2, refuting "adding a value to a column's accepted-set never
increases the view's row count". -/
theorem c5_filter_monotonicity_false :
    toggleFilterMap "A" "b" [("A", ["a"])] = [("A", ["a", "b"])] ∧
    (filteredRowsCalc (some exDataAB) "" [("A", ["a"])] ⟨none, Direction.asc⟩).length = 1 ∧
    (filteredRowsCalc (some exDataAB) ""
      (toggleFilterMap "A" "b" [("A", ["a"])]) ⟨none, Direction.asc⟩).length = 2 := by
  refine ⟨?_, rfl, rfl⟩
  decide

/-- C6 counterexample: with a dirty pending buffer `{A: z}` on record 0,
navigating to the next record moves the selection, empties the buffer,
and leaves the dataset untouched — the unsaved edit silently vanishes
with no commit, no discard decision, and no blocking. -/
theorem c6_navigation_resolution_false :
    exDirtyState.pendingChanges = [("A", "z")] ∧
    exDirtyState.selectedIndex = some 0 ∧
    (step (Event.nav NavDir.next) exDirtyState).selectedIndex = some 1 ∧
    (step (Event.nav NavDir.next) exDirtyState).pendingChanges = [] ∧
    (step (Event.nav NavDir.next) exDirtyState).data = exDirtyState.data := by
  refine ⟨rfl, rfl, ?_, rfl, rfl⟩
  decide

/-- C6 amended: navigation, selecting a record, and closing the detail
panel each silently clear the pending-edit buffer without touching the
dataset — the buffer is never committed by these moves and never carried
to another row (it is empty afterwards). -/
theorem c6_buffer_silently_cleared :
    ∀ (s : AppState) (dir : NavDir) (i : Nat),
      (s.selectedIndex ≠ none → (navigateRecord dir s).pendingChanges = []) ∧
      (navigateRecord dir s).data = s.data ∧
      (handleRowClick i s).pendingChanges = [] ∧
      (handleRowClick i s).data = s.data ∧
      (closePanel s).pendingChanges = [] ∧
      (closePanel s).data = s.data := by
  intro s dir i
  refine ⟨?_, ?_, rfl, rfl, rfl, rfl⟩
  · intro h
    unfold navigateRecord
    match hsel : s.selectedIndex with
    | none => exact absurd hsel h
    | some j => simp
  · unfold navigateRecord
    match hsel : s.selectedIndex with
    | none => rfl
    | some j => rfl

/-- C6 amended witness: the general clearing theorem applied to the
concrete dirty state. -/
theorem c6_buffer_silently_cleared_instance :
    (navigateRecord NavDir.next exDirtyState).pendingChanges = [] ∧
    (navigateRecord NavDir.next exDirtyState).data = exDirtyState.data := by
  have h := c6_buffer_silently_cleared exDirtyState NavDir.next 0
  exact ⟨h.1 (by decide), h.2.1⟩

/-- C7 counterexample: with display order `[A, B]` and a `movedColumn`
name `C` that is not present, the reorder is NOT a no-op: `indexOf`
returns `-1`, `splice(-1, 1)` deletes the last element `B`, and `C` is
inserted, yielding `[A, C]`. -/
theorem c7_reorder_noop_false :
    ("C" ∉ ["A", "B"]) ∧
    moveColumnList "C" "B" ["A", "B"] = ["A", "C"] ∧
    moveColumnList "C" "B" ["A", "B"] ≠ ["A", "B"] := by
  refine ⟨by decide, ?_, by decide⟩
  decide

/-- C8 counterexample: with canonical columns `[A]`, calling
`addColumn(" A ")` reports "Column already exists" and mutates nothing,
although the raw name `" A "` does not collide case-sensitively with any
existing column — the duplicate check runs on the trimmed name, so the
claimed "error iff `name` collides" equivalence fails. -/
theorem c8_addcolumn_iff_false :
    exStateA.data = some ⟨["A"], [⟨0, [("A", Value.str "x")]⟩], "f.csv", none⟩ ∧
    (" A " ∉ ["A"]) ∧
    (addColumn " A " exStateA).2 = some "Column already exists" ∧
    (addColumn " A " exStateA).1 = exStateA := by
  refine ⟨rfl, by decide, ?_, ?_⟩ <;> decide

/-- One `toggleColumn` call never empties a non-empty visible set. -/
theorem toggleColumnSet_ne_nil (h : String) (vis : List String) (hv : vis ≠ []) :
    toggleColumnSet h vis ≠ [] := by
  unfold toggleColumnSet setAdd
  by_cases hc : vis.contains h
  · simp only [hc, if_true]
    by_cases hl : vis.length > 1
    · simp only [hl, if_true]
      intro hnil
      have hmem : h ∈ vis := by simpa using hc
      have := List.length_erase_of_mem hmem
      rw [hnil] at this
      simp at this
      omega
    · simp only [hl, if_false]
      exact hv
  · simp only [hc, if_false]
    by_cases hm : h ∈ vis
    · simp only [hm, if_true]; exact hv
    · simp only [hm, if_false]; simp

/-- C9: the visibility floor.  When exactly one column is visible and it
is the toggle target, the call is a no-op; and no sequence of
`toggleColumn` calls starting from a non-empty visible set ever reaches
an empty one. -/
theorem c9_visibility_floor :
    ∀ (vis : List String), vis ≠ [] →
      (∀ h, vis = [h] → toggleColumnSet h vis = vis) ∧
      (∀ seq : List String, seq.foldl (fun v h => toggleColumnSet h v) vis ≠ []) := by
  intro vis hv
  constructor
  · intro h hone
    subst hone
    unfold toggleColumnSet
    simp
  · intro seq
    induction seq generalizing vis with
    | nil => exact hv
    | cons h rest ih =>
        simp only [List.foldl_cons]
        exact ih _ (toggleColumnSet_ne_nil h vis hv)

/-- C9 witness: repeatedly toggling off the single visible column `A`
leaves it visible. -/
theorem c9_visibility_floor_instance :
    toggleColumnSet "A" ["A"] = ["A"] ∧
    ["A", "A", "A"].foldl (fun v h => toggleColumnSet h v) ["A"] ≠ [] := by
  have h := c9_visibility_floor ["A"] (by decide)
  exact ⟨h.1 "A" rfl, h.2 ["A", "A", "A"]⟩

/-! ### Stability of the sort -/

/-- Inserting an element leaves the previous list as a sublist. -/
theorem sublist_insertSorted {α : Type} (cmp : α → α → Int) (x : α) (s : List α) :
    s.Sublist (insertSorted cmp x s) := by
  induction s with
  | nil => exact List.nil_sublist _
  | cons y ys ih =>
      unfold insertSorted
      by_cases h : cmp x y ≤ 0
      · simp only [h, if_true]
        exact List.sublist_cons_self x (y :: ys)
      · simp only [h, if_false]
        exact List.Sublist.cons₂ y ih

/-- Insertion sort output is a permutation of its input. -/
theorem insertSorted_perm {α : Type} (cmp : α → α → Int) (x : α) (s : List α) :
    List.Perm (insertSorted cmp x s) (x :: s) := by
  induction s with
  | nil => exact List.Perm.refl _
  | cons y ys ih =>
      unfold insertSorted
      by_cases h : cmp x y ≤ 0
      · simp [h]
      · simp only [h, if_false]
        exact (List.Perm.cons y ih).trans (List.Perm.swap x y ys)

/-- `stableSort` is a permutation of the input. -/
theorem stableSort_perm {α : Type} (cmp : α → α → Int) (l : List α) :
    List.Perm (stableSort cmp l) l := by
  induction l with
  | nil => exact List.Perm.refl _
  | cons x xs ih =>
      have h1 : stableSort cmp (x :: xs) = insertSorted cmp x (stableSort cmp xs) := rfl
      rw [h1]
      exact (insertSorted_perm cmp x (stableSort cmp xs)).trans (List.Perm.cons x ih)

/-- `stableSort` preserves the length. -/
theorem stableSort_length {α : Type} (cmp : α → α → Int) (l : List α) :
    (stableSort cmp l).length = l.length :=
  (stableSort_perm cmp l).length_eq

/-- Inserting `x`, which preceded the whole sorted list in the input,
keeps it before every element it does not strictly follow. -/
theorem pair_insertSorted {α : Type} (cmp : α → α → Int) (x b : α) (s : List α)
    (hb : b ∈ s) (hle : cmp x b ≤ 0) :
    List.Sublist [x, b] (insertSorted cmp x s) := by
  induction s with
  | nil => cases hb
  | cons y ys ih =>
      unfold insertSorted
      by_cases h : cmp x y ≤ 0
      · simp only [h, if_true]
        exact List.Sublist.cons₂ x (List.singleton_sublist.mpr hb)
      · simp only [h, if_false]
        rcases List.mem_cons.mp hb with hby | hbys
        · exact absurd (hby ▸ hle) h
        · exact List.Sublist.cons y (ih hbys)

/-- Stability of the insertion sort: any input pair whose comparator
value is non-positive keeps its relative order in the output. -/
theorem stableSort_pair_sublist {α : Type} (cmp : α → α → Int) (l : List α) (a b : α)
    (hab : List.Sublist [a, b] l) (h : cmp a b ≤ 0) :
    List.Sublist [a, b] (stableSort cmp l) := by
  induction l with
  | nil => cases hab
  | cons x xs ih =>
      have h1 : stableSort cmp (x :: xs) = insertSorted cmp x (stableSort cmp xs) := rfl
      rw [h1]
      cases hab with
      | cons _ htail =>
          exact (ih htail).trans (sublist_insertSorted cmp x (stableSort cmp xs))
      | cons₂ _ htail =>
          have hbmem : b ∈ stableSort cmp xs :=
            (stableSort_perm cmp xs).mem_iff.mpr (List.singleton_sublist.mp htail)
          exact pair_insertSorted cmp a b (stableSort cmp xs) hbmem h

/-- C4: sort stability in the view pipeline.  For any dataset, query,
filter state, non-empty sort column and direction, two rows of the
filtered input sequence whose sort keys compare equal appear in the same
relative order in the pipeline output. -/
theorem c4_sort_stable :
    ∀ (d : SpreadsheetData) (q : String) (filters : List (String × List String))
      (k : String) (dir : Direction) (a b : Row),
      k ≠ "" →
      List.Sublist [a, b]
        (applyFilters filters (if q = "" then d.rows else d.rows.filter (searchPred q))) →
      cmpJS k dir a b = 0 →
      List.Sublist [a, b] (filteredRowsCalc (some d) q filters ⟨some k, dir⟩) := by
  intro d q filters k dir a b hk hab hcmp
  unfold filteredRowsCalc
  simp only [hk, if_false]
  exact stableSort_pair_sublist (cmpJS k dir) _ a b hab (le_of_eq hcmp)

/-- C4 witness: two content-identical rows sorted ascending (and thus
tied) keep their import order in the output view. -/
theorem c4_sort_stable_instance :
    List.Sublist [(⟨0, [("A", Value.str "x")]⟩ : Row), ⟨1, [("A", Value.str "x")]⟩]
      (filteredRowsCalc (some exDataDup) "" [] ⟨some "A", Direction.asc⟩) := by
  exact c4_sort_stable exDataDup "" [] "A" Direction.asc _ _ (by decide) (by decide) (by decide)

/-! ### Filter monotonicity -/

/-- A successful record lookup means some entry carries the key. -/
theorem recordLookup_any {α : Type} (m : List (String × α)) (k : String) (v : α)
    (h : recordLookup m k = some v) : m.any (fun kv => kv.1 = k) = true := by
  induction m with
  | nil => cases h
  | cons a rest ih =>
      unfold recordLookup at h
      by_cases ha : a.1 = k
      · simp [ha]
      · simp only [ha, if_false] at h
        simp [ha, ih h]

/-- With duplicate-free keys, every entry carrying the looked-up key
holds the looked-up value. -/
theorem recordEntry_eq_of_nodup {α : Type} (m : List (String × α)) (col : String) (vs : α)
    (hnd : (m.map Prod.fst).Nodup) (hlook : recordLookup m col = some vs) :
    ∀ kv ∈ m, kv.1 = col → kv.2 = vs := by
  induction m with
  | nil => intro kv hkv; cases hkv
  | cons a rest ih =>
      intro kv hkv hkc
      unfold recordLookup at hlook
      rcases List.mem_cons.mp hkv with hkva | hkvr
      · subst hkva
        simp only [hkc, if_true] at hlook
        exact Option.some_inj.mp hlook
      · by_cases ha : a.1 = col
        · exfalso
          have : col ∈ rest.map Prod.fst := List.mem_map.mpr ⟨kv, hkvr, hkc⟩
          have hna : a.1 ∉ rest.map Prod.fst := (List.nodup_cons.mp (by simpa using hnd)).1
          exact hna (ha ▸ this)
        · simp only [ha, if_false] at hlook
          exact ih (List.nodup_cons.mp (by simpa using hnd)).2 hlook kv hkvr hkc

/-- Unfolding equation of `applyFilters` on a cons. -/
theorem applyFilters_cons (cv : String × List String) (fs : List (String × List String))
    (rows : List Row) :
    applyFilters (cv :: fs) rows =
      applyFilters fs
        (if cv.2.length > 0 then rows.filter (fun r => cv.2.contains (cellText r cv.1))
         else rows) := rfl

/-- The filter chain is one `filter` pass with the conjunction of all
active column tests. -/
theorem applyFilters_eq (fs : List (String × List String)) (rows : List Row) :
    applyFilters fs rows = rows.filter (filtersPred fs) := by
  induction fs generalizing rows with
  | nil =>
      unfold applyFilters
      simp only [List.foldl_nil]
      exact (List.filter_eq_self.mpr (fun a _ => by simp [filtersPred])).symm
  | cons cv fs ih =>
      rw [applyFilters_cons]
      by_cases h : cv.2.length > 0
      · simp only [h, if_true]
        rw [ih, List.filter_filter]
        apply List.filter_congr
        intro r _
        have hne : cv.2.isEmpty = false := by
          cases hcv : cv.2 with
          | nil => rw [hcv] at h; simp at h
          | cons w ws => simp
        simp [filtersPred, hne, Bool.and_comm]
      · simp only [h, if_false]
        have hnil : cv.2 = [] := by
          cases hcv : cv.2 with
          | nil => rfl
          | cons w ws => rw [hcv] at h; simp at h
        rw [ih]
        apply List.filter_congr
        intro r _
        simp [filtersPred, hnil]

/-- The pipeline's row count is the filtered row count: the sort stage is
a permutation. -/
theorem filteredRowsCalc_length (d : SpreadsheetData) (q : String)
    (f : List (String × List String)) (sc : SortConfig) :
    (filteredRowsCalc (some d) q f sc).length =
      (applyFilters f (if q = "" then d.rows else d.rows.filter (searchPred q))).length := by
  obtain ⟨key, dir⟩ := sc
  cases key with
  | none => rfl
  | some k =>
      by_cases hk : k = ""
      · simp [filteredRowsCalc, hk]
      · simp [filteredRowsCalc, hk, stableSort_length]

/-- Replacing one column's accepted set by a superset (both non-empty)
weakens the conjunction of filter tests. -/
theorem filtersPred_recordSet_mono (f : List (String × List String)) (col : String)
    (vs w : List String) (r : Row)
    (hnd : (f.map Prod.fst).Nodup) (hlook : recordLookup f col = some vs)
    (hvs : vs ≠ []) (hw : w ≠ []) (hsub : ∀ x, x ∈ vs → x ∈ w)
    (hpred : filtersPred f r = true) : filtersPred (recordSet f col w) r = true := by
  have hany := recordLookup_any f col vs hlook
  unfold recordSet
  rw [hany]
  simp only [if_true]
  unfold filtersPred at hpred ⊢
  rw [List.all_map]
  rw [List.all_eq_true] at hpred ⊢
  intro kv hkv
  have hcv := hpred kv hkv
  by_cases hkc : kv.1 = col
  · have hkv2 : kv.2 = vs := recordEntry_eq_of_nodup f col vs hnd hlook kv hkv hkc
    simp only [Function.comp, hkc, if_true]
    rw [hkv2] at hcv
    have hvsne : vs.isEmpty = false := by
      cases vs with
      | nil => exact absurd rfl hvs
      | cons a as => simp
    rw [hvsne] at hcv
    simp only [Bool.false_or] at hcv
    have hmem : cellText r kv.1 ∈ vs := by simpa using hcv
    have hwne : w.isEmpty = false := by
      cases w with
      | nil => exact absurd rfl hw
      | cons a as => simp
    rw [hkc] at hmem
    simp [hwne]
    exact hsub _ hmem
  · simp only [Function.comp, hkc, if_false]
    exact hcv

/-- Replacing one column's accepted set by a subset (both non-empty)
strengthens the conjunction of filter tests. -/
theorem filtersPred_recordSet_rev (f : List (String × List String)) (col : String)
    (vs w : List String) (r : Row)
    (hnd : (f.map Prod.fst).Nodup) (hlook : recordLookup f col = some vs)
    (hvs : vs ≠ []) (hw : w ≠ []) (hsub : ∀ x, x ∈ w → x ∈ vs)
    (hpred : filtersPred (recordSet f col w) r = true) : filtersPred f r = true := by
  have hany := recordLookup_any f col vs hlook
  unfold recordSet at hpred
  rw [hany] at hpred
  simp only [if_true] at hpred
  unfold filtersPred at hpred ⊢
  rw [List.all_map] at hpred
  rw [List.all_eq_true] at hpred ⊢
  intro kv hkv
  have hcv := hpred kv hkv
  by_cases hkc : kv.1 = col
  · have hkv2 : kv.2 = vs := recordEntry_eq_of_nodup f col vs hnd hlook kv hkv hkc
    simp only [Function.comp, hkc, if_true] at hcv
    have hwne : w.isEmpty = false := by
      cases w with
      | nil => exact absurd rfl hw
      | cons a as => simp
    rw [hwne] at hcv
    simp only [Bool.false_or] at hcv
    have hmem : cellText r col ∈ w := by simpa using hcv
    have hvsne : vs.isEmpty = false := by
      cases vs with
      | nil => exact absurd rfl hvs
      | cons a as => simp
    rw [hkv2, hkc]
    simp [hvsne]
    exact hsub _ hmem
  · simp only [Function.comp, hkc, if_false] at hcv
    exact hcv

/-- C5 amended: for a column that already carries a non-empty accepted
set, adding a value never DECREASES the view's row count, and removing a
value that leaves the set non-empty never INCREASES it.  (The claim's
stated directions are refuted by the counterexample; creating
the first filter value or deleting the last one unfilters or filters the
column and can move the count the other way.) -/
theorem c5_filter_monotonicity_amended :
    ∀ (d : SpreadsheetData) (q : String) (sc : SortConfig)
      (f : List (String × List String)) (col v : String) (vs : List String),
      (f.map Prod.fst).Nodup →
      recordLookup f col = some vs →
      vs ≠ [] →
      (v ∉ vs →
        (filteredRowsCalc (some d) q f sc).length ≤
          (filteredRowsCalc (some d) q (toggleFilterMap col v f) sc).length) ∧
      (v ∈ vs → vs.erase v ≠ [] →
        (filteredRowsCalc (some d) q (toggleFilterMap col v f) sc).length ≤
          (filteredRowsCalc (some d) q f sc).length) := by
  intro d q sc f col v vs hnd hlook hvs
  constructor
  · intro hv
    have hcontains : vs.contains v = false := by simpa using hv
    have htoggle : toggleFilterMap col v f = recordSet f col (vs ++ [v]) := by
      unfold toggleFilterMap
      rw [hlook]
      simp [hv]
    rw [htoggle, filteredRowsCalc_length, filteredRowsCalc_length,
        applyFilters_eq, applyFilters_eq]
    apply List.Sublist.length_le
    apply List.monotone_filter_right
    intro r hr
    exact filtersPred_recordSet_mono f col vs (vs ++ [v]) r hnd hlook hvs
      (by simp) (fun x hx => List.mem_append_left _ hx) hr
  · intro hv herase
    have hcontains : vs.contains v = true := by simpa using hv
    have htoggle : toggleFilterMap col v f = recordSet f col (vs.erase v) := by
      unfold toggleFilterMap
      rw [hlook]
      simp [hv, herase]
    rw [htoggle, filteredRowsCalc_length, filteredRowsCalc_length,
        applyFilters_eq, applyFilters_eq]
    apply List.Sublist.length_le
    apply List.monotone_filter_right
    intro r hr
    exact filtersPred_recordSet_rev f col vs (vs.erase v) r hnd hlook hvs herase
      (fun x hx => List.mem_of_mem_erase hx) hr

/-- C5 amended witness: removing `b` from the accepted set `{a, b}` of
column `A` drops the view's row count from 2 to 1 — never increasing it. -/
theorem c5_filter_monotonicity_amended_instance :
    (filteredRowsCalc (some exDataAB) ""
        (toggleFilterMap "A" "b" [("A", ["a", "b"])]) ⟨none, Direction.asc⟩).length ≤
      (filteredRowsCalc (some exDataAB) "" [("A", ["a", "b"])] ⟨none, Direction.asc⟩).length := by
  exact (c5_filter_monotonicity_amended exDataAB "" ⟨none, Direction.asc⟩
    [("A", ["a", "b"])] "A" "b" ["a", "b"] (by decide) (by decide) (by decide)).2
    (by decide) (by decide)

/-! ### Commit correctness -/

/-- Rendering never changes the dataset. -/
theorem render_data (s : AppState) : (render s).data = s.data := by
  unfold render
  split <;> rfl

/-- Rendering is the identity on states whose memo dependencies are in
sync. -/
theorem render_of_fresh (s : AppState) (h : MemoDepsFresh s) : render s = s := by
  unfold render
  exact if_pos h

/-- `indexOf` on the canonical row array finds the reference-identical
row, and only it, when the array holds pairwise distinct objects. -/
theorem ridIndexOf_of_mem (t : Row) (l : List Row) (ht : t ∈ l)
    (hnd : (l.map Row.rid).Nodup) :
    ∃ j, ridIndexOf t.rid l = some j ∧ l[j]? = some t := by
  induction l with
  | nil => cases ht
  | cons r rs ih =>
      rw [List.map_cons] at hnd
      obtain ⟨hhead, htail⟩ := List.nodup_cons.mp hnd
      by_cases h : r.rid = t.rid
      · refine ⟨0, by simp [ridIndexOf, h], ?_⟩
        rcases List.mem_cons.mp ht with h1 | h1
        · simp [h1]
        · exfalso
          have hm : t.rid ∈ rs.map Row.rid := List.mem_map.mpr ⟨t, h1, rfl⟩
          exact hhead (h ▸ hm)
      · rcases List.mem_cons.mp ht with h1 | h1
        · exact absurd (by rw [h1]) h
        · obtain ⟨j, hj, hg⟩ := ih h1 htail
          refine ⟨j + 1, ?_, ?_⟩
          · simp [ridIndexOf, h, hj]
          · simpa using hg

/-- Updating an existing key by mapping over the entries makes it
readable. -/
theorem recordLookup_mapSet_self (fields : List (String × Value)) (k : String) (v : Value)
    (h : fields.any (fun kv => kv.1 = k) = true) :
    recordLookup (fields.map (fun kv => if kv.1 = k then (k, v) else kv)) k = some v := by
  induction fields with
  | nil => simp at h
  | cons a rest ih =>
      by_cases ha : a.1 = k
      · simp [recordLookup, ha]
      · simp only [List.map_cons, ha, if_false]
        unfold recordLookup
        rw [if_neg ha]
        apply ih
        simpa [ha] using h

/-- Appending a new key makes it readable. -/
theorem recordLookup_append_self (fields : List (String × Value)) (k : String) (v : Value)
    (h : fields.any (fun kv => kv.1 = k) = false) :
    recordLookup (fields ++ [(k, v)]) k = some v := by
  induction fields with
  | nil => simp [recordLookup]
  | cons a rest ih =>
      rw [List.any_cons] at h
      have ha : ¬ a.1 = k := by
        intro hk
        simp [hk] at h
      have h' : rest.any (fun kv => kv.1 = k) = false := by
        simpa [ha] using h
      rw [List.cons_append]
      unfold recordLookup
      rw [if_neg ha]
      exact ih h'

/-- One property assignment makes the assigned key readable. -/
theorem recordLookup_assocSet_self (fields : List (String × Value)) (k : String) (v : Value) :
    recordLookup (assocSet fields k v) k = some v := by
  unfold assocSet
  by_cases h : fields.any (fun kv => kv.1 = k) = true
  · rw [if_pos h]
    exact recordLookup_mapSet_self fields k v h
  · rw [if_neg h]
    exact recordLookup_append_self fields k v (Bool.eq_false_iff.mpr h)

/-- Updating one key by mapping over the entries leaves every other key
unchanged. -/
theorem recordLookup_mapSet_ne (fields : List (String × Value)) (k : String) (v : Value)
    (c : String) (hc : c ≠ k) :
    recordLookup (fields.map (fun kv => if kv.1 = k then (k, v) else kv)) c =
      recordLookup fields c := by
  induction fields with
  | nil => rfl
  | cons a rest ih =>
      simp only [List.map_cons]
      by_cases ha : a.1 = k
      · rw [if_pos ha]
        simp only [recordLookup]
        rw [if_neg (show ¬ (k, v).1 = c from fun hx => hc hx.symm),
            if_neg (show ¬ a.1 = c from fun hx => hc (hx ▸ ha))]
        exact ih
      · rw [if_neg ha]
        simp only [recordLookup]
        by_cases hac : a.1 = c
        · rw [if_pos hac, if_pos hac]
        · rw [if_neg hac, if_neg hac]
          exact ih

/-- Appending a new key leaves every other key unchanged. -/
theorem recordLookup_append_ne (fields : List (String × Value)) (k : String) (v : Value)
    (c : String) (hc : c ≠ k) :
    recordLookup (fields ++ [(k, v)]) c = recordLookup fields c := by
  induction fields with
  | nil =>
      simp only [List.nil_append, recordLookup]
      rw [if_neg (show ¬ (k, v).1 = c from fun hx => hc hx.symm)]
  | cons a rest ih =>
      rw [List.cons_append]
      simp only [recordLookup]
      by_cases hac : a.1 = c
      · rw [if_pos hac, if_pos hac]
      · rw [if_neg hac, if_neg hac]
        exact ih

/-- One property assignment leaves every other key unchanged. -/
theorem recordLookup_assocSet_ne (fields : List (String × Value)) (k : String) (v : Value)
    (c : String) (hc : c ≠ k) :
    recordLookup (assocSet fields k v) c = recordLookup fields c := by
  unfold assocSet
  by_cases h : fields.any (fun kv => kv.1 = k) = true
  · rw [if_pos h]
    exact recordLookup_mapSet_ne fields k v c hc
  · rw [if_neg h]
    exact recordLookup_append_ne fields k v c hc

/-- Characterization of a successful `saveChanges` run. -/
theorem saveChanges_spec (s : AppState) (d : SpreadsheetData) (i : Int) (t : Row) (j : Nat)
    (hsel : s.selectedIndex = some i) (hdata : s.data = some d)
    (hview : jsArrayGet s.memoFiltered.value i = some t)
    (hidx : ridIndexOf t.rid d.rows = some j) (hget : d.rows[j]? = some t) :
    saveChanges s =
      { s with
        data := some { d with
          rows := d.rows.set j ⟨s.nextRid, mergeFields t.fields s.pendingChanges⟩ },
        pendingChanges := [],
        nextRid := s.nextRid + 1 } := by
  unfold saveChanges
  have hget' : d.rows.get? j = some t := by
    rw [List.get?_eq_getElem?]
    exact hget
  simp only [hsel, hdata, hview, hidx, hget']

/-- The heart of the commit scenario: selecting view row `i`, staging one
edit and saving resolves the selected row by identity to a unique
canonical position and rewrites exactly that position. -/
theorem commit_core (s : AppState) (d : SpreadsheetData) (i : Nat) (t : Row) (col v : String)
    (hfresh : MemoDepsFresh s) (hdata : s.data = some d)
    (hview : jsArrayGet s.memoFiltered.value ((i : Nat) : Int) = some t)
    (hmem : t ∈ d.rows) (hnd : (d.rows.map Row.rid).Nodup) :
    ∃ j, d.rows[j]? = some t ∧ ridIndexOf t.rid d.rows = some j ∧
      (runEvents [Event.rowClick i, Event.fieldUpdate col v, Event.save] s).data =
        some { d with
          rows := d.rows.set j ⟨s.nextRid, assocSet t.fields col (Value.str v)⟩ } := by
  obtain ⟨j, hj, hget⟩ := ridIndexOf_of_mem t d.rows hmem hnd
  refine ⟨j, hget, hj, ?_⟩
  have h1 : runEvents [Event.rowClick i, Event.fieldUpdate col v, Event.save] s =
      step Event.save (handleFieldUpdate col v (handleRowClick i s)) := by
    show step Event.save (step (Event.fieldUpdate col v) (step (Event.rowClick i) s)) = _
    rw [show step (Event.rowClick i) s = handleRowClick i s from render_of_fresh _ hfresh,
        show step (Event.fieldUpdate col v) (handleRowClick i s) =
          handleFieldUpdate col v (handleRowClick i s) from render_of_fresh _ hfresh]
  rw [h1]
  unfold step
  rw [render_data]
  rw [show applyEvent Event.save (handleFieldUpdate col v (handleRowClick i s)) =
        saveChanges (handleFieldUpdate col v (handleRowClick i s)) from rfl,
      saveChanges_spec (handleFieldUpdate col v (handleRowClick i s)) d ((i : Nat) : Int) t j
        rfl hdata hview hj hget]
  rfl

/-- C2: commit correctness.  (1) From any rendered state, selecting view
row `i` (which holds row object `t` of the canonical dataset), staging
the single edit `col ↦ v`, and committing yields a dataset identical to
`D` except that the canonical position holding `t` now carries `v` in
`col`; every other row, and every other column of that row, is
unchanged.  (2) Commit with no record selected is a no-op.  (3) Commit
is atomic: it either leaves the dataset untouched or applies the whole
buffer to exactly one row. -/
theorem c2_commit_correct :
    (∀ (s : AppState) (d : SpreadsheetData) (i : Nat) (t : Row) (col v : String),
      MemoDepsFresh s → s.data = some d →
      jsArrayGet s.memoFiltered.value ((i : Nat) : Int) = some t →
      t ∈ d.rows → (d.rows.map Row.rid).Nodup →
      ∃ j : Nat, d.rows[j]? = some t ∧
        ∃ d', (runEvents [Event.rowClick i, Event.fieldUpdate col v, Event.save] s).data =
            some d' ∧
          d'.headers = d.headers ∧ d'.fileName = d.fileName ∧
          d'.rows.length = d.rows.length ∧
          (∀ k, k ≠ j → d'.rows[k]? = d.rows[k]?) ∧
          ∃ r' : Row, d'.rows[j]? = some r' ∧
            recordLookup r'.fields col = some (Value.str v) ∧
            (∀ c, c ≠ col → recordLookup r'.fields c = recordLookup t.fields c)) ∧
    (∀ s : AppState, s.selectedIndex = none → saveChanges s = s) ∧
    (∀ (s : AppState) (d : SpreadsheetData), s.data = some d →
      (saveChanges s).data = s.data ∨
      ∃ (j : Nat) (old : Row), d.rows[j]? = some old ∧
        (saveChanges s).data =
          some { d with
            rows := d.rows.set j ⟨s.nextRid, mergeFields old.fields s.pendingChanges⟩ }) := by
  refine ⟨?_, ?_, ?_⟩
  · intro s d i t col v hfresh hdata hview hmem hnd
    obtain ⟨j, hget, hidx, hfinal⟩ := commit_core s d i t col v hfresh hdata hview hmem hnd
    have hlt : j < d.rows.length := (List.getElem?_eq_some.mp hget).1
    refine ⟨j, hget,
      { d with rows := d.rows.set j ⟨s.nextRid, assocSet t.fields col (Value.str v)⟩ },
      hfinal, rfl, rfl, List.length_set d.rows j _, ?_, ?_⟩
    · intro k hk
      exact List.getElem?_set_ne (fun hx => hk hx.symm)
    · refine ⟨⟨s.nextRid, assocSet t.fields col (Value.str v)⟩,
        List.getElem?_set_eq_of_lt _ hlt, recordLookup_assocSet_self t.fields col _, ?_⟩
      intro c hc
      exact recordLookup_assocSet_ne t.fields col _ c hc
  · intro s hsel
    unfold saveChanges
    simp only [hsel]
  · intro s d hdata
    rcases hsel : s.selectedIndex with _ | i
    · left
      unfold saveChanges
      simp only [hsel]
    · rcases hview : jsArrayGet s.memoFiltered.value i with _ | target
      · left
        unfold saveChanges
        simp only [hsel, hdata, hview]
      · rcases hidx : ridIndexOf target.rid d.rows with _ | j
        · left
          unfold saveChanges
          simp only [hsel, hdata, hview, hidx]
        · rcases hget : d.rows.get? j with _ | old
          · left
            unfold saveChanges
            simp only [hsel, hdata, hview, hidx, hget]
          · right
            refine ⟨j, old, by rw [← List.get?_eq_getElem?]; exact hget, ?_⟩
            unfold saveChanges
            simp only [hsel, hdata, hview, hidx, hget]

/-- C2 witness: committing `A ↦ z` on view row 0 of the concrete two-row
state rewrites exactly the first canonical row. -/
theorem c2_commit_correct_instance :
    ∃ j : Nat, (⟨["A"], [⟨0, [("A", Value.str "x")]⟩, ⟨1, [("A", Value.str "y")]⟩],
        "f.csv", none⟩ : SpreadsheetData).rows[j]? =
          some (⟨0, [("A", Value.str "x")]⟩ : Row) ∧
      ∃ d' : SpreadsheetData,
        (runEvents [Event.rowClick 0, Event.fieldUpdate "A" "z", Event.save]
          exState2).data = some d' ∧
        d'.headers = ["A"] ∧ d'.fileName = "f.csv" ∧ d'.rows.length = 2 ∧
        (∀ k, k ≠ j →
          d'.rows[k]? = ([⟨0, [("A", Value.str "x")]⟩, ⟨1, [("A", Value.str "y")]⟩] :
            List Row)[k]?) ∧
        ∃ r' : Row, d'.rows[j]? = some r' ∧
          recordLookup r'.fields "A" = some (Value.str "z") ∧
          (∀ c, c ≠ "A" →
            recordLookup r'.fields c = recordLookup [("A", Value.str "x")] c) := by
  exact c2_commit_correct.1 exState2
    ⟨["A"], [⟨0, [("A", Value.str "x")]⟩, ⟨1, [("A", Value.str "y")]⟩], "f.csv", none⟩
    0 ⟨0, [("A", Value.str "x")]⟩ "A" "z"
    (by decide) (by decide) (by decide) (by decide) (by decide)

/-- With pairwise distinct object identities, a row value determines its
canonical position. -/
theorem getElem_eq_of_rid_nodup (l : List Row) (i j : Nat) (a b : Row)
    (hnd : (l.map Row.rid).Nodup) (ha : l[i]? = some a) (hb : l[j]? = some b)
    (hrid : a.rid = b.rid) : i = j := by
  have hia : (l.map Row.rid)[i]? = some a.rid := by
    rw [List.getElem?_map, ha]
    rfl
  have hjb : (l.map Row.rid)[j]? = some b.rid := by
    rw [List.getElem?_map, hb]
    rfl
  have hlt : i < (l.map Row.rid).length := (List.getElem?_eq_some.mp hia).1
  exact List.getElem?_inj hlt hnd (by rw [hia, hjb, hrid])

/-- C3: commit resolves the selected view row by object identity, never
by content.  For a dataset holding two content-identical rows at
positions `j1` and `j2`, committing a staged edit on the view row that IS
the row at `j1` rewrites position `j1` and leaves the row at `j2`
untouched. -/
theorem c3_commit_identity_resolution :
    ∀ (s : AppState) (d : SpreadsheetData) (i j1 j2 : Nat) (t1 t2 : Row) (col v : String),
      MemoDepsFresh s → s.data = some d → (d.rows.map Row.rid).Nodup →
      d.rows[j1]? = some t1 → d.rows[j2]? = some t2 → j1 ≠ j2 →
      t1.fields = t2.fields →
      jsArrayGet s.memoFiltered.value ((i : Nat) : Int) = some t1 →
      ∃ d' : SpreadsheetData,
        (runEvents [Event.rowClick i, Event.fieldUpdate col v, Event.save] s).data =
          some d' ∧
        d'.rows[j1]? = some (⟨s.nextRid, assocSet t1.fields col (Value.str v)⟩ : Row) ∧
        d'.rows[j2]? = some t2 ∧
        d'.rows.length = d.rows.length := by
  intro s d i j1 j2 t1 t2 col v hfresh hdata hnd hg1 hg2 hne hfieldseq hview
  have hmem : t1 ∈ d.rows := List.getElem?_mem hg1
  obtain ⟨j, hget, hidx, hfinal⟩ := commit_core s d i t1 col v hfresh hdata hview hmem hnd
  have hjj1 : j = j1 := getElem_eq_of_rid_nodup d.rows j j1 t1 t1 hnd hget hg1 rfl
  subst hjj1
  have hlt : j < d.rows.length := (List.getElem?_eq_some.mp hget).1
  refine ⟨_, hfinal, ?_, ?_, List.length_set d.rows j _⟩
  · exact List.getElem?_set_eq_of_lt _ hlt
  · rw [List.getElem?_set_ne hne]
    exact hg2

/-- C3 witness: a dataset with two content-identical rows; committing on
the view row that is the second canonical row edits position 1 and
leaves position 0 untouched. -/
theorem c3_commit_identity_resolution_instance :
    ∃ d' : SpreadsheetData,
      (runEvents [Event.rowClick 1, Event.fieldUpdate "A" "z", Event.save]
        exStateDup).data = some d' ∧
      d'.rows[1]? = some (⟨2, assocSet [("A", Value.str "x")] "A" (Value.str "z")⟩ : Row) ∧
      d'.rows[0]? = some (⟨0, [("A", Value.str "x")]⟩ : Row) ∧
      d'.rows.length = 2 := by
  exact c3_commit_identity_resolution exStateDup
    ⟨["A"], [⟨0, [("A", Value.str "x")]⟩, ⟨1, [("A", Value.str "x")]⟩], "f.csv", none⟩
    1 1 0 ⟨1, [("A", Value.str "x")]⟩ ⟨0, [("A", Value.str "x")]⟩ "A" "z"
    (by decide) (by decide) (by decide) (by decide) (by decide) (by decide) rfl (by decide)

/-! ### Column reorder -/

/-- `indexOf` misses on an absent name. -/
theorem strIndexOfAux_not_mem (x : String) (l : List String) (h : x ∉ l) :
    strIndexOfAux x l = none := by
  induction l with
  | nil => rfl
  | cons y ys ih =>
      have hy : ¬ y = x := fun hx => h (hx ▸ List.mem_cons_self y ys)
      have hys : x ∉ ys := fun hx => h (List.mem_cons_of_mem y hx)
      simp [strIndexOfAux, hy, ih hys]

/-- The start index of a non-negative in-range splice argument. -/
theorem spliceStart_coe (len n : Nat) (h : n ≤ len) :
    spliceStart len ((n : Nat) : Int) = n := by
  unfold spliceStart
  rw [if_neg (by omega : ¬ ((n : Int) < 0))]
  simp
  omega

/-- `splice(-1, 1)` removes the last element. -/
theorem spliceRemoveOne_neg_one {α : Type} (l : List α) :
    spliceRemoveOne l (-1) = l.dropLast := by
  unfold spliceRemoveOne spliceStart
  rw [if_pos (by norm_num : (-1 : Int) < 0)]
  have h1 : (max ((l.length : Int) + -1) 0).toNat = l.length - 1 := by omega
  rw [h1]
  cases l with
  | nil => rfl
  | cons a as =>
      have h2 : (a :: as).length - 1 = as.length := by simp
      rw [h2, List.dropLast_eq_take]
      have h3 : (a :: as).drop (as.length + 1) = [] := by
        rw [List.drop_succ_cons]
        exact List.drop_length as
      rw [h3, List.append_nil, h2]

/-- `splice(-1, 0, x)` inserts before the last element. -/
theorem spliceInsert_neg_one {α : Type} (l : List α) (x : α) :
    spliceInsert l (-1) x = l.dropLast ++ x :: l.drop (l.length - 1) := by
  unfold spliceInsert spliceStart
  rw [if_pos (by norm_num : (-1 : Int) < 0)]
  have h1 : (max ((l.length : Int) + -1) 0).toNat = l.length - 1 := by omega
  rw [h1, List.dropLast_eq_take]

/-- A present name's `indexOf` is its first occurrence, and removing one
element there is exactly `erase`. -/
theorem strIndexOfAux_spec (x : String) (l : List String) (h : x ∈ l) :
    ∃ n : Nat, strIndexOfAux x l = some n ∧ n < l.length ∧
      spliceRemoveOne l ((n : Nat) : Int) = l.erase x := by
  induction l with
  | nil => cases h
  | cons y ys ih =>
      by_cases hy : y = x
      · refine ⟨0, by simp [strIndexOfAux, hy], by simp, ?_⟩
        have h1 : spliceRemoveOne (y :: ys) ((0 : Nat) : Int) = ys := by
          unfold spliceRemoveOne
          rw [spliceStart_coe _ 0 (by simp)]
          simp
        rw [h1, hy, List.erase_cons_head]
      · have hys : x ∈ ys := by
          rcases List.mem_cons.mp h with h1 | h1
          · exact absurd h1.symm hy
          · exact h1
        obtain ⟨n, hn, hlt, hrem⟩ := ih hys
        refine ⟨n + 1, by simp [strIndexOfAux, hy, hn], by simpa using Nat.succ_lt_succ hlt, ?_⟩
        have hss1 : spliceStart (y :: ys).length ((n + 1 : Nat) : Int) = n + 1 :=
          spliceStart_coe _ _ (by simp; omega)
        have hss2 : spliceStart ys.length ((n : Nat) : Int) = n :=
          spliceStart_coe _ _ (by omega)
        unfold spliceRemoveOne
        rw [hss1, List.take_succ_cons, List.drop_succ_cons, List.cons_append]
        unfold spliceRemoveOne at hrem
        rw [hss2] at hrem
        rw [hrem, List.erase_cons_tail (by simp [hy])]

/-- C7 amended: when both names are present, the reorder removes
`movedColumn` and reinserts it at the index `targetColumn` occupied
BEFORE the call (a permutation of the order).  When a name is absent,
`indexOf` returns `-1` and the splices address the end of the sequence,
so the call is NOT a no-op: an absent `movedColumn` removes the last
element and inserts `movedColumn` at `targetColumn`'s pre-call position;
an absent `targetColumn` reinserts `movedColumn` just before the last
element of the remainder. -/
theorem c7_reorder_amended :
    ∀ (order : List String) (dragged target : String), order.Nodup →
      (dragged ∈ order → target ∈ order →
        ∃ k : Nat, strIndexOfAux target order = some k ∧
          moveColumnList dragged target order =
            (order.erase dragged).take k ++ dragged :: (order.erase dragged).drop k ∧
          List.Perm (moveColumnList dragged target order) order) ∧
      (dragged ∉ order →
        moveColumnList dragged target order =
          spliceInsert order.dropLast (jsIndexOfStr order target) dragged) ∧
      (dragged ∈ order → target ∉ order →
        moveColumnList dragged target order =
          (order.erase dragged).dropLast ++
            dragged :: (order.erase dragged).drop ((order.erase dragged).length - 1)) := by
  intro order dragged target hnd
  refine ⟨?_, ?_, ?_⟩
  · intro hd ht
    obtain ⟨n, hn, hnlt, hrem⟩ := strIndexOfAux_spec dragged order hd
    obtain ⟨k, hk, hklt, _⟩ := strIndexOfAux_spec target order ht
    have hklen : k ≤ (order.erase dragged).length := by
      rw [List.length_erase_of_mem hd]
      omega
    have hmain : moveColumnList dragged target order =
        (order.erase dragged).take k ++ dragged :: (order.erase dragged).drop k := by
      unfold moveColumnList
      simp only [jsIndexOfStr, hn, hk]
      rw [hrem]
      unfold spliceInsert
      rw [spliceStart_coe _ _ hklen]
    refine ⟨k, hk, hmain, ?_⟩
    rw [hmain]
    have h1 : List.Perm
        ((order.erase dragged).take k ++ dragged :: (order.erase dragged).drop k)
        (dragged :: ((order.erase dragged).take k ++ (order.erase dragged).drop k)) :=
      List.perm_middle
    rw [List.take_append_drop] at h1
    exact h1.trans (List.perm_cons_erase hd).symm
  · intro hd
    unfold moveColumnList
    simp only [jsIndexOfStr, strIndexOfAux_not_mem dragged order hd]
    rw [spliceRemoveOne_neg_one]
  · intro hd ht
    obtain ⟨n, hn, hnlt, hrem⟩ := strIndexOfAux_spec dragged order hd
    unfold moveColumnList
    simp only [jsIndexOfStr, hn, strIndexOfAux_not_mem target order ht]
    rw [hrem, spliceInsert_neg_one]

/-- C7 amended witness: moving `A` onto `C` in `[A, B, C]` reinserts `A`
at the pre-call index 2 of `C`, giving `[B, C, A]`, a permutation of the
original order. -/
theorem c7_reorder_amended_instance :
    ∃ k : Nat, strIndexOfAux "C" ["A", "B", "C"] = some k ∧
      moveColumnList "A" "C" ["A", "B", "C"] =
        ((["A", "B", "C"] : List String).erase "A").take k ++
          "A" :: ((["A", "B", "C"] : List String).erase "A").drop k ∧
      List.Perm (moveColumnList "A" "C" ["A", "B", "C"]) ["A", "B", "C"] := by
  exact (c7_reorder_amended ["A", "B", "C"] "A" "C" (by decide)).1 (by decide) (by decide)

/-! ### Adding a column -/

/-- C8 amended: for a name whose trimmed form is non-empty, `addColumn`
fails with the "already exists" alert and no mutation iff the TRIMMED
name collides case-sensitively with an existing column; otherwise it
appends the trimmed name to the canonical order, sets every existing
row's new field to the empty string (all other fields unchanged), makes
the new column visible and appends it to the display order.  (A name
whose trim is empty is a silent no-op, and the raw name is never what is
checked or stored — see the counterexample.) -/
theorem c8_addcolumn_amended :
    ∀ (s : AppState) (d : SpreadsheetData) (name : String),
      s.data = some d → jsTrim name ≠ "" →
      (jsTrim name ∈ d.headers → addColumn name s = (s, some "Column already exists")) ∧
      (jsTrim name ∉ d.headers →
        (addColumn name s).2 = none ∧
        ∃ d' : SpreadsheetData, (addColumn name s).1.data = some d' ∧
          d'.headers = d.headers ++ [jsTrim name] ∧
          d'.rows.length = d.rows.length ∧
          (∀ (k : Nat) (r : Row), d.rows[k]? = some r →
            ∃ r' : Row, d'.rows[k]? = some r' ∧
              recordLookup r'.fields (jsTrim name) = some (Value.str "") ∧
              (∀ c, c ≠ jsTrim name →
                recordLookup r'.fields c = recordLookup r.fields c)) ∧
          jsTrim name ∈ (addColumn name s).1.visibleColumns ∧
          (addColumn name s).1.columnOrder = s.columnOrder ++ [jsTrim name]) := by
  intro s d name hdata htrim
  constructor
  · intro hcol
    unfold addColumn
    simp only [hdata]
    rw [if_neg htrim, if_pos (by simpa using hcol)]
  · intro hcol
    unfold addColumn
    simp only [hdata]
    rw [if_neg htrim, if_neg (by simpa using hcol)]
    refine ⟨rfl, _, rfl, rfl, by simp, ?_, ?_, rfl⟩
    · intro k r hk
      refine ⟨⟨s.nextRid + k, assocSet r.fields (jsTrim name) (Value.str "")⟩, ?_,
        recordLookup_assocSet_self r.fields (jsTrim name) (Value.str ""), ?_⟩
      · rw [List.getElem?_map, List.getElem?_enum, hk]
        rfl
      · intro c hc
        exact recordLookup_assocSet_ne r.fields (jsTrim name) (Value.str "") c hc
    · unfold setAdd
      by_cases h : jsTrim name ∈ s.visibleColumns
      · rw [if_pos h]
        exact h
      · rw [if_neg h]
        simp

/-- C8 amended witness: adding `"  B "` to the single-column state stores
the trimmed name `B`. -/
theorem c8_addcolumn_amended_instance :
    (addColumn "  B " exStateA).2 = none ∧
    ∃ d' : SpreadsheetData, (addColumn "  B " exStateA).1.data = some d' ∧
      d'.headers = ["A"] ++ ["B"] ∧
      d'.rows.length = 1 ∧
      (∀ (k : Nat) (r : Row),
        ([⟨0, [("A", Value.str "x")]⟩] : List Row)[k]? = some r →
        ∃ r' : Row, d'.rows[k]? = some r' ∧
          recordLookup r'.fields "B" = some (Value.str "") ∧
          (∀ c, c ≠ "B" → recordLookup r'.fields c = recordLookup r.fields c)) ∧
      "B" ∈ (addColumn "  B " exStateA).1.visibleColumns ∧
      (addColumn "  B " exStateA).1.columnOrder = ["A"] ++ ["B"] := by
  have h := (c8_addcolumn_amended exStateA
    ⟨["A"], [⟨0, [("A", Value.str "x")]⟩], "f.csv", none⟩ "  B "
    (by decide) (by decide)).2 (by decide)
  exact h

/-- C10: `addColumn` trims its argument first.  A name whose trim is
empty is a silent no-op (no alert, no state change); the case-sensitive
duplicate check runs against the trimmed name (the alert fires iff the
trimmed name is an existing column); and on success the stored column —
in the canonical order and the display order — is the trimmed name,
never the raw argument. -/
theorem c10_addcolumn_trim :
    ∀ (s : AppState) (name : String),
      (jsTrim name = "" → addColumn name s = (s, none)) ∧
      (∀ d : SpreadsheetData, s.data = some d → jsTrim name ≠ "" →
        ((addColumn name s).2.isSome = true ↔ jsTrim name ∈ d.headers) ∧
        (jsTrim name ∈ d.headers → (addColumn name s).1 = s) ∧
        (jsTrim name ∉ d.headers →
          ∃ d' : SpreadsheetData, (addColumn name s).1.data = some d' ∧
            d'.headers = d.headers ++ [jsTrim name] ∧
            (addColumn name s).1.columnOrder = s.columnOrder ++ [jsTrim name])) := by
  intro s name
  constructor
  · intro htrim
    unfold addColumn
    rcases hdata : s.data with _ | d
    · simp only [hdata]
    · simp only [hdata]
      rw [if_pos htrim]
  · intro d hdata htrim
    unfold addColumn
    simp only [hdata]
    rw [if_neg htrim]
    by_cases hcol : jsTrim name ∈ d.headers
    · rw [if_pos (by simpa using hcol)]
      exact ⟨by simpa using hcol, fun _ => rfl, fun h => absurd hcol h⟩
    · rw [if_neg (by simpa using hcol)]
      refine ⟨by simpa using hcol, fun h => absurd h hcol, fun _ => ⟨_, rfl, rfl, rfl⟩⟩

/-- C10 witness: `addColumn("  B ")` stores `B`; `addColumn("  ")` is a
silent no-op; `addColumn(" A ")` alerts because the trim collides. -/
theorem c10_addcolumn_trim_instance :
    addColumn "  " exStateA = (exStateA, none) ∧
    ((addColumn " A " exStateA).2.isSome = true ↔ jsTrim " A " ∈ (["A"] : List String)) ∧
    ∃ d' : SpreadsheetData, (addColumn "  B " exStateA).1.data = some d' ∧
      d'.headers = ["A"] ++ ["B"] ∧
      (addColumn "  B " exStateA).1.columnOrder = ["A"] ++ ["B"] := by
  refine ⟨(c10_addcolumn_trim exStateA "  ").1 (by decide), ?_, ?_⟩
  · have h := ((c10_addcolumn_trim exStateA " A ").2
      ⟨["A"], [⟨0, [("A", Value.str "x")]⟩], "f.csv", none⟩ (by decide) (by decide)).1
    simpa using h
  · exact ((c10_addcolumn_trim exStateA "  B ").2
      ⟨["A"], [⟨0, [("A", Value.str "x")]⟩], "f.csv", none⟩ (by decide) (by decide)).2.2
      (by decide)

end DataViewer
